import Mathlib

/-!
Verification of the blood-bank inventory allocation subsystem.

This file gives a shallow embedding of the allocation core of
`src/server.js`: the inventory/request data model, the expiry sweep
(`checkExpiredBlood`), and the approve endpoint
(`app.put('/api/requests/:id/approve')`), together with proofs of the
specified properties (conservation, FIFO-by-expiry, split correctness,
error paths, frame conditions).

Dates are modelled as natural-number timestamps; MongoDB documents as
structures with a numeric `id`; a document `save()` as an in-place
replacement by `id`; `Inventory.find(...).sort({expiryDate: 1})` as a
stable insertion sort of the filtered list (Mongo returns documents in
store order; the sort key of the source is `expiryDate` alone).
-/

/-- The eight ABO/Rh blood type categories of the schemas. -/
inductive BloodType
  | Ap | An | Bp | Bn | ABp | ABn | Op | On
deriving DecidableEq, Repr

/-- Inventory `status` enum: `['available', 'reserved', 'used', 'expired']`. -/
inductive BatchStatus
  | available | reserved | used | expired
deriving DecidableEq, Repr

/-- Request `status` enum: `['pending', 'fulfilled', 'rejected', 'cancelled']`. -/
inductive RequestStatus
  | pending | fulfilled | rejected | cancelled
deriving DecidableEq, Repr

/-- Request `priority` enum: `['Low', 'Medium', 'High', 'Critical']`. -/
inductive Priority
  | low | medium | high | critical
deriving DecidableEq, Repr

/-- An inventory document (`inventorySchema`): a batch of blood units. -/
structure Batch where
  id : Nat
  bloodType : BloodType
  units : Nat
  donorId : Option Nat
  collectionDate : Nat
  expiryDate : Nat
  status : BatchStatus
  createdAt : Nat
  updatedAt : Nat
deriving DecidableEq, Repr

/-- A request document (`requestSchema`). -/
structure Request where
  id : Nat
  patientName : String
  bloodType : BloodType
  units : Nat
  priority : Priority
  hospital : String
  status : RequestStatus
  requestDate : Nat
  processedBy : Option String
  processedDate : Option Nat
  createdAt : Nat
  updatedAt : Nat
deriving DecidableEq, Repr

/-- The persistent state: the `Inventory` and `Request` collections, plus a
counter supplying the next fresh document id. -/
structure DB where
  inventory : List Batch
  requests : List Request
  nextId : Nat
deriving DecidableEq, Repr

/-- Errors surfaced by the approve endpoint (HTTP 404 / 400 responses). -/
inductive ApproveError
  | notFound
  | invalidState (st : RequestStatus)
  | insufficientStock (available required : Nat)
deriving DecidableEq, Repr

/-- `checkExpiredBlood`: `Inventory.updateMany({expiryDate: {$lt: now},
status: 'available'}, {$set: {status: 'expired'}})`. -/
def checkExpiredBlood (now : Nat) (inv : List Batch) : List Batch :=
  inv.map (fun b =>
    if b.expiryDate < now ∧ b.status = BatchStatus.available then
      { b with status := BatchStatus.expired }
    else b)

/-- The filter of the availability aggregate and of the allocation query:
`{bloodType: request.bloodType, status: 'available', expiryDate: {$gt: new Date()}}`. -/
def eligibleOf (bt : BloodType) (now : Nat) (inv : List Batch) : List Batch :=
  inv.filter (fun b =>
    decide (b.bloodType = bt ∧ b.status = BatchStatus.available ∧ now < b.expiryDate))

/-- Comparison used by `.sort({ expiryDate: 1 })`. -/
def expLE (a b : Batch) : Prop := a.expiryDate ≤ b.expiryDate

instance : DecidableRel expLE := fun a b => Nat.decLe a.expiryDate b.expiryDate

instance : IsTotal Batch expLE := ⟨fun a b => Nat.le_total a.expiryDate b.expiryDate⟩

instance : IsTrans Batch expLE := ⟨fun _ _ _ => Nat.le_trans⟩

/-- `.sort({ expiryDate: 1 })`, modelled as a stable sort on the list in
store order (the source sorts by `expiryDate` alone). -/
def sortByExpiry (l : List Batch) : List Batch :=
  List.insertionSort expLE l

/-- `totalAvailable`: the `$sum: '$units'` aggregate over the eligible batches. -/
def totalAvailable (bt : BloodType) (now : Nat) (inv : List Batch) : Nat :=
  ((eligibleOf bt now inv).map Batch.units).sum

/-- `item.status = 'used'; item.updatedAt = new Date()` — full consumption of a batch. -/
def fullConsume (now : Nat) (b : Batch) : Batch :=
  { b with status := BatchStatus.used, updatedAt := now }

/-- `item.units -= unitsToDeduct; item.updatedAt = new Date()` — the remnant of a split. -/
def reduceBy (now q : Nat) (b : Batch) : Batch :=
  { b with units := b.units - q, updatedAt := now }

/-- The `new Inventory({...})` record created by a split: quantity equal to the
remaining need, status `'used'`, other fields copied from the original batch
(`createdAt` kept, per the source comment). -/
def splitBatch (now nid q : Nat) (b : Batch) : Batch :=
  { id := nid
    bloodType := b.bloodType
    units := q
    donorId := b.donorId
    collectionDate := b.collectionDate
    expiryDate := b.expiryDate
    status := BatchStatus.used
    createdAt := b.createdAt
    updatedAt := now }

/-- The deduction loop `for (const item of inventoryItemsToUpdate) {...}`:
given the remaining need and the sorted eligible batches, returns the list of
batch documents saved with changed contents and the list of newly inserted
split batches. -/
def allocGo (now nid : Nat) : Nat → List Batch → List Batch × List Batch
  | _, [] => ([], [])
  | need, item :: rest =>
    if need = 0 then ([], [])
    else if item.units ≤ need then
      let p := allocGo now nid (need - item.units) rest
      (fullConsume now item :: p.1, p.2)
    else
      ([reduceBy now need item], [splitBatch now nid need item])

/-- Replace, in store order, each document whose `id` matches an updated
document by that update (`document.save()` for existing documents). -/
def applyUpdates (ups : List Batch) (inv : List Batch) : List Batch :=
  inv.map (fun b => ((ups.find? (fun u => decide (u.id = b.id))).getD b))

/-- A single `save()` of an updated document. -/
def updateOne (u : Batch) (inv : List Batch) : List Batch :=
  inv.map (fun b => if b.id = u.id then u else b)

/-- `Request.findById(req.params.id)`. -/
def findRequest (db : DB) (reqId : Nat) : Option Request :=
  db.requests.find? (fun r => decide (r.id = reqId))

/-- The mutation applied to the request on success: `status = 'fulfilled'`,
`processedBy = 'System'`, `processedDate`/`updatedAt = new Date()`. -/
def requestUpd (now : Nat) (request : Request) : Request :=
  { request with
      status := RequestStatus.fulfilled
      processedBy := some "System"
      processedDate := some now
      updatedAt := now }

/-- The approve endpoint `app.put('/api/requests/:id/approve')` of
`src/server.js`: load the request (404 if absent, 400 if not pending),
compute availability over available, unexpired batches of its blood type
(400 with available/required on shortfall), deduct FIFO-by-expiry with
batch splitting, then mark the request fulfilled. Returns the state after
the handler together with its result. -/
def approve (now reqId : Nat) (db : DB) : DB × Except ApproveError Request :=
  match findRequest db reqId with
  | none => (db, Except.error ApproveError.notFound)
  | some request =>
    if request.status ≠ RequestStatus.pending then
      (db, Except.error (ApproveError.invalidState request.status))
    else
      let avail := totalAvailable request.bloodType now db.inventory
      if avail < request.units then
        (db, Except.error (ApproveError.insufficientStock avail request.units))
      else
        let sorted := sortByExpiry (eligibleOf request.bloodType now db.inventory)
        let p := allocGo now db.nextId request.units sorted
        ( { inventory := applyUpdates p.1 db.inventory ++ p.2
            requests := db.requests.map (fun x =>
              if x.id = reqId then requestUpd now request else x)
            nextId := db.nextId + 1 },
          Except.ok (requestUpd now request) )

/-- Result of running the deduction loop with a bounded number of writes:
the updates and inserts that were committed before the failing write, the
write budget left, and whether every write of the loop succeeded. -/
structure AllocFault where
  ups : List Batch
  news : List Batch
  left : Nat
  ok : Bool
deriving DecidableEq, Repr

/-- The deduction loop under a fault model: each `save()` consumes one unit
of `budget`; a save attempted with no budget left throws, aborting the rest
of the handler while everything already saved stays committed (the source
performs sequential saves with no surrounding transaction). In the split
branch the insert of the new batch precedes the save of the reduced one,
matching the source order. -/
def allocGoF (now nid : Nat) : Nat → Nat → List Batch → AllocFault
  | _, budget, [] => ⟨[], [], budget, true⟩
  | need, budget, item :: rest =>
    if need = 0 then ⟨[], [], budget, true⟩
    else if item.units ≤ need then
      if budget = 0 then ⟨[], [], 0, false⟩
      else
        let p := allocGoF now nid (need - item.units) (budget - 1) rest
        ⟨fullConsume now item :: p.ups, p.news, p.left, p.ok⟩
    else
      if budget = 0 then ⟨[], [], 0, false⟩
      else if budget = 1 then ⟨[], [splitBatch now nid need item], 0, false⟩
      else ⟨[reduceBy now need item], [splitBatch now nid need item], budget - 2, true⟩

/-- The approve endpoint under the write-fault model: identical control flow
to `approve`, but each `save()` may fail once the write budget is exhausted.
The final request save is one further write. Returns the committed state and
whether the handler completed successfully. -/
def approveFaulty (now reqId budget : Nat) (db : DB) : DB × Bool :=
  match findRequest db reqId with
  | none => (db, false)
  | some request =>
    if request.status ≠ RequestStatus.pending then (db, false)
    else
      let avail := totalAvailable request.bloodType now db.inventory
      if avail < request.units then (db, false)
      else
        let sorted := sortByExpiry (eligibleOf request.bloodType now db.inventory)
        let p := allocGoF now db.nextId request.units budget sorted
        let inv2 := applyUpdates p.ups db.inventory ++ p.news
        if p.ok then
          if p.left = 0 then
            ({ inventory := inv2, requests := db.requests, nextId := db.nextId + 1 }, false)
          else
            ({ inventory := inv2
               requests := db.requests.map (fun x =>
                 if x.id = reqId then requestUpd now request else x)
               nextId := db.nextId + 1 }, true)
        else
          ({ inventory := inv2, requests := db.requests, nextId := db.nextId + 1 }, false)

/-- Whether an `Except` result is a success. -/
def isOkE (e : Except ApproveError Request) : Bool :=
  match e with
  | Except.ok _ => true
  | Except.error _ => false

/-- Sum of `units` over the batches of one blood type, across all statuses. -/
def sumUnitsOf (bt : BloodType) (l : List Batch) : Nat :=
  (l.map (fun b => if b.bloodType = bt then b.units else 0)).sum

/-- Sum of a numeric measure over a batch list. -/
def sumF (f : Batch → Nat) (l : List Batch) : Nat :=
  (l.map f).sum

/-! ### Concrete states used as witnesses and counterexamples -/

/-- An A+ batch of 3 units expiring at time 50, first created. -/
def batchA : Batch := ⟨1, BloodType.Ap, 3, some 7, 0, 50, BatchStatus.available, 1, 1⟩

/-- An A+ batch of 4 units expiring at time 100, created second. -/
def batchB : Batch := ⟨2, BloodType.Ap, 4, none, 0, 100, BatchStatus.available, 2, 2⟩

/-- A pending request for 5 units of A+. -/
def requestA : Request :=
  ⟨10, "P", BloodType.Ap, 5, Priority.high, "H", RequestStatus.pending, 0, none, none, 0, 0⟩

/-- Store with the two A+ batches (later-expiring one first in store order)
and the pending request for 5 units. -/
def dbA : DB := ⟨[batchB, batchA], [requestA], 100⟩

/-- An O+ batch of 1 unit, expiry 100, created at time 200 (younger),
first in store order. -/
def batchC : Batch := ⟨1, BloodType.Op, 1, none, 0, 100, BatchStatus.available, 200, 0⟩

/-- An O+ batch of 1 unit, same expiry 100, created at time 50 (older),
second in store order. -/
def batchD : Batch := ⟨2, BloodType.Op, 1, none, 0, 100, BatchStatus.available, 50, 0⟩

/-- A pending request for 1 unit of O+. -/
def requestB : Request :=
  ⟨11, "Q", BloodType.Op, 1, Priority.low, "H2", RequestStatus.pending, 0, none, none, 0, 0⟩

/-- Store with two equal-expiry O+ batches whose store order disagrees with
creation order. -/
def dbB : DB := ⟨[batchC, batchD], [requestB], 300⟩

/-- A pending request for 2 units of O+. -/
def requestC : Request :=
  ⟨12, "Q2", BloodType.Op, 2, Priority.low, "H2", RequestStatus.pending, 0, none, none, 0, 0⟩

/-- Store consuming both equal-expiry O+ batches. -/
def dbC : DB := ⟨[batchC, batchD], [requestC], 300⟩

/-- An O- batch of 3 units. -/
def batchE : Batch := ⟨5, BloodType.On, 3, none, 0, 100, BatchStatus.available, 0, 0⟩

/-- A pending request for 10 units of O- (more than available). -/
def requestD : Request :=
  ⟨13, "R", BloodType.On, 10, Priority.critical, "H3", RequestStatus.pending, 0, none, none, 0, 0⟩

/-- Store with insufficient O- stock for its request. -/
def dbD : DB := ⟨[batchE], [requestD], 50⟩

/-- A request that is already fulfilled (not pending). -/
def requestE : Request :=
  ⟨14, "S", BloodType.Ap, 1, Priority.low, "H4", RequestStatus.fulfilled, 0, none, none, 0, 0⟩

/-- Store whose only request is non-pending. -/
def dbE : DB := ⟨[], [requestE], 1⟩

/-- An A+ batch whose expiry (time 5) is already past at time 10, still
marked available (no sweep has run). -/
def batchF : Batch := ⟨6, BloodType.Ap, 2, none, 0, 5, BatchStatus.available, 0, 0⟩

/-- A pending request for 1 unit of A+. -/
def requestF : Request :=
  ⟨15, "T", BloodType.Ap, 1, Priority.low, "H5", RequestStatus.pending, 0, none, none, 0, 0⟩

/-- Store holding a date-expired available batch next to a fresh one. -/
def dbF : DB := ⟨[batchF, batchA], [requestF], 70⟩

/-- A B- batch of 5 units (a different blood type from the request's). -/
def batchG : Batch := ⟨8, BloodType.Bn, 5, none, 0, 99, BatchStatus.available, 0, 0⟩

/-- Store with two blood types and two requests, only one of each involved
in the approval. -/
def dbG : DB := ⟨[batchG, batchA], [requestF, requestE], 80⟩

/-! ### Basic lemmas about the store model -/

theorem mem_eligibleOf {bt : BloodType} {now : Nat} {inv : List Batch} {b : Batch} :
    b ∈ eligibleOf bt now inv ↔
      b ∈ inv ∧ b.bloodType = bt ∧ b.status = BatchStatus.available ∧ now < b.expiryDate := by
  simp [eligibleOf, List.mem_filter]

theorem mem_sortByExpiry {l : List Batch} {b : Batch} :
    b ∈ sortByExpiry l ↔ b ∈ l :=
  List.mem_insertionSort expLE

theorem sortByExpiry_sorted (l : List Batch) :
    List.Sorted expLE (sortByExpiry l) :=
  List.sorted_insertionSort expLE l

theorem nodup_ids_sorted_eligible {inv : List Batch} {bt : BloodType} {now : Nat}
    (h : (inv.map Batch.id).Nodup) :
    ((sortByExpiry (eligibleOf bt now inv)).map Batch.id).Nodup := by
  have h1 : ((eligibleOf bt now inv).map Batch.id).Nodup :=
    ((List.filter_sublist inv).map Batch.id).nodup h
  exact (((List.perm_insertionSort expLE (eligibleOf bt now inv)).map Batch.id).nodup_iff).mpr h1

theorem nodup_ids_inj {l : List Batch} (h : (l.map Batch.id).Nodup)
    {a b : Batch} (ha : a ∈ l) (hb : b ∈ l) (hid : a.id = b.id) : a = b :=
  List.inj_on_of_nodup_map h ha hb hid

/-! ### Lemmas about document saves (`applyUpdates` / `updateOne`) -/

theorem applyUpdates_nil (inv : List Batch) : applyUpdates [] inv = inv := by
  simp [applyUpdates]

theorem getD_find?_id (ups : List Batch) (b : Batch) :
    ((ups.find? (fun u => decide (u.id = b.id))).getD b).id = b.id := by
  cases h : ups.find? (fun u => decide (u.id = b.id)) with
  | none => rfl
  | some u =>
    have := List.find?_some h
    simpa using of_decide_eq_true this

theorem applyUpdates_cons (u : Batch) (ups : List Batch) (inv : List Batch) :
    applyUpdates (u :: ups) inv = updateOne u (applyUpdates ups inv) := by
  unfold applyUpdates updateOne
  rw [List.map_map]
  apply List.map_congr_left
  intro b _
  by_cases hub : u.id = b.id
  · rw [List.find?_cons_of_pos _ (by simpa using hub)]
    simp only [Function.comp_apply, Option.getD_some]
    rw [if_pos]
    rw [getD_find?_id]
    exact hub.symm
  · rw [List.find?_cons_of_neg _ (by simpa using hub)]
    simp only [Function.comp_apply]
    rw [if_neg]
    rw [getD_find?_id]
    exact fun hc => hub hc.symm

theorem applyUpdates_map_id (ups inv : List Batch) :
    (applyUpdates ups inv).map Batch.id = inv.map Batch.id := by
  unfold applyUpdates
  rw [List.map_map]
  apply List.map_congr_left
  intro b _
  exact getD_find?_id ups b

theorem mem_applyUpdates_unmatched {ups inv : List Batch} {b : Batch}
    (hb : b ∈ inv) (h : ∀ u ∈ ups, u.id ≠ b.id) : b ∈ applyUpdates ups inv := by
  have hnone : ups.find? (fun u => decide (u.id = b.id)) = none := by
    rw [List.find?_eq_none]
    intro u hu
    simpa using h u hu
  have : ((ups.find? (fun u => decide (u.id = b.id))).getD b) = b := by
    rw [hnone]; rfl
  unfold applyUpdates
  rw [← this]
  exact List.mem_map_of_mem _ hb

theorem updateOne_eq_self {u : Batch} {inv : List Batch}
    (h : ∀ x ∈ inv, x.id ≠ u.id) : updateOne u inv = inv := by
  unfold updateOne
  have : ∀ b ∈ inv, (if b.id = u.id then u else b) = b := by
    intro b hb
    rw [if_neg (h b hb)]
  rw [List.map_congr_left this, List.map_id']

theorem sumF_updateOne {f : Batch → Nat} {u o : Batch} :
    ∀ {inv : List Batch}, (inv.map Batch.id).Nodup → o ∈ inv → u.id = o.id →
      sumF f (updateOne u inv) + f o = sumF f inv + f u := by
  intro inv
  induction inv with
  | nil => intro _ ho; cases ho
  | cons b rest ih =>
    intro hnodup ho hid
    have hnr : (rest.map Batch.id).Nodup := (List.nodup_cons.mp hnodup).2
    have hbid : b.id ∉ rest.map Batch.id := (List.nodup_cons.mp hnodup).1
    rcases List.mem_cons.mp ho with rfl | ho'
    · have hrest : ∀ x ∈ rest, x.id ≠ u.id := by
        intro x hx hxe
        apply hbid
        have hmem : x.id ∈ rest.map Batch.id := List.mem_map_of_mem Batch.id hx
        rwa [hxe, hid] at hmem
      unfold updateOne
      simp only [List.map_cons, if_pos hid.symm]
      have : List.map (fun b => if b.id = u.id then u else b) rest = rest := by
        have := updateOne_eq_self hrest
        simpa [updateOne] using this
      rw [this]
      simp [sumF]
      omega
    · have hbu : ¬ b.id = u.id := by
        intro he
        apply hbid
        have hmem : o.id ∈ rest.map Batch.id := List.mem_map_of_mem Batch.id ho'
        rwa [← hid, ← he] at hmem
      unfold updateOne
      simp only [List.map_cons, if_neg hbu]
      have ihr := ih hnr ho' hid
      simp only [sumF, List.map_cons, List.sum_cons] at ihr ⊢
      simp only [updateOne, sumF] at ihr
      omega

/-! ### Characterization of the deduction loop -/

theorem allocGo_ups_spec (now nid : Nat) :
    ∀ (l : List Batch) (need : Nat), ∀ u ∈ (allocGo now nid need l).1,
      ∃ e ∈ l, u.id = e.id ∧ u.bloodType = e.bloodType ∧
        (u = fullConsume now e ∨ ∃ q, 0 < q ∧ q < e.units ∧ u = reduceBy now q e) := by
  intro l
  induction l with
  | nil => intro need u hu; simp [allocGo] at hu
  | cons item rest ih =>
    intro need u hu
    by_cases h0 : need = 0
    · simp [allocGo, h0] at hu
    · by_cases hle : item.units ≤ need
      · simp only [allocGo, if_neg h0, if_pos hle, List.mem_cons] at hu
        rcases hu with rfl | hu'
        · exact ⟨item, List.mem_cons_self item rest, rfl, rfl, Or.inl rfl⟩
        · obtain ⟨e, he, h1, h2, h3⟩ := ih (need - item.units) u hu'
          exact ⟨e, List.mem_cons_of_mem item he, h1, h2, h3⟩
      · simp only [allocGo, if_neg h0, if_neg hle, List.mem_singleton] at hu
        subst hu
        exact ⟨item, List.mem_cons_self item rest, rfl, rfl,
          Or.inr ⟨need, Nat.pos_of_ne_zero h0, Nat.lt_of_not_le hle, rfl⟩⟩

theorem allocGo_news_spec (now nid : Nat) :
    ∀ (l : List Batch) (need : Nat), ∀ nb ∈ (allocGo now nid need l).2,
      ∃ e ∈ l, ∃ q, 0 < q ∧ q < e.units ∧ nb = splitBatch now nid q e := by
  intro l
  induction l with
  | nil => intro need nb hnb; simp [allocGo] at hnb
  | cons item rest ih =>
    intro need nb hnb
    by_cases h0 : need = 0
    · simp [allocGo, h0] at hnb
    · by_cases hle : item.units ≤ need
      · simp only [allocGo, if_neg h0, if_pos hle] at hnb
        obtain ⟨e, he, h1⟩ := ih (need - item.units) nb hnb
        exact ⟨e, List.mem_cons_of_mem item he, h1⟩
      · simp only [allocGo, if_neg h0, if_neg hle, List.mem_singleton] at hnb
        subst hnb
        exact ⟨item, List.mem_cons_self item rest, need,
          Nat.pos_of_ne_zero h0, Nat.lt_of_not_le hle, rfl⟩

/-- Conservation core: if the measure `f` is unchanged by full consumption
and preserved jointly by the two halves of a split, then applying the loop's
saves and inserts to the store preserves the total measure. The processed
list must consist of distinct-id documents of the store. -/
theorem alloc_conserve {f : Batch → Nat} {now nid : Nat} {inv : List Batch}
    (hinv : (inv.map Batch.id).Nodup)
    (hfc : ∀ b, f (fullConsume now b) = f b)
    (hsp : ∀ q b, 0 < q → q < b.units → f (reduceBy now q b) + f (splitBatch now nid q b) = f b) :
    ∀ (l : List Batch) (need : Nat),
      (∀ x ∈ l, x ∈ inv) → (l.map Batch.id).Nodup →
      sumF f (applyUpdates (allocGo now nid need l).1 inv ++ (allocGo now nid need l).2)
        = sumF f inv := by
  intro l
  induction l with
  | nil =>
    intro need _ _
    simp [allocGo, applyUpdates_nil, sumF]
  | cons item rest ih =>
    intro need hmem hnodup
    have hnr : (rest.map Batch.id).Nodup := (List.nodup_cons.mp hnodup).2
    have hir : item.id ∉ rest.map Batch.id := (List.nodup_cons.mp hnodup).1
    have hmemr : ∀ x ∈ rest, x ∈ inv := fun x hx => hmem x (List.mem_cons_of_mem item hx)
    by_cases h0 : need = 0
    · simp [allocGo, h0, applyUpdates_nil, sumF]
    · by_cases hle : item.units ≤ need
      · simp only [allocGo, if_neg h0, if_pos hle]
        set p := allocGo now nid (need - item.units) rest with hp
        have hitem_unmatched : ∀ u ∈ p.1, u.id ≠ item.id := by
          intro u hu
          obtain ⟨e, he, h1, _, _⟩ := allocGo_ups_spec now nid rest (need - item.units) u hu
          intro hc
          apply hir
          have : e.id ∈ rest.map Batch.id := List.mem_map_of_mem Batch.id he
          rwa [← h1, hc] at this
        have hnodup2 : ((applyUpdates p.1 inv).map Batch.id).Nodup := by
          rw [applyUpdates_map_id]; exact hinv
        have hmem2 : item ∈ applyUpdates p.1 inv :=
          mem_applyUpdates_unmatched (hmem item (List.mem_cons_self item rest)) hitem_unmatched
        have hsum1 := sumF_updateOne (f := f) (u := fullConsume now item) (o := item)
          hnodup2 hmem2 rfl
        rw [applyUpdates_cons]
        have hihr := ih (need - item.units) hmemr hnr
        rw [← hp] at hihr
        simp only [sumF, List.map_append, List.sum_append] at hsum1 hihr ⊢
        rw [hfc item] at hsum1
        omega
      · simp only [allocGo, if_neg h0, if_neg hle]
        have hpos : 0 < need := Nat.pos_of_ne_zero h0
        have hlt : need < item.units := Nat.lt_of_not_le hle
        rw [applyUpdates_cons, applyUpdates_nil]
        have hsum1 := sumF_updateOne (f := f) (u := reduceBy now need item) (o := item)
          hinv (hmem item (List.mem_cons_self item rest)) rfl
        have hjoint := hsp need item hpos hlt
        simp only [sumF, List.map_append, List.sum_append] at hsum1 ⊢
        simp only [List.map_cons, List.map_nil, List.sum_cons, List.sum_nil]
        omega

/-- The loop consumes an initial segment: if a later document of the
processed list was saved, every earlier document of the list was saved as
fully consumed. -/
theorem allocGo_consumes_earlier (now nid : Nat) :
    ∀ (l : List Batch) (need : Nat), (l.map Batch.id).Nodup →
      ∀ c b : Batch, [c, b].Sublist l →
        (∃ u ∈ (allocGo now nid need l).1, u.id = b.id) →
        fullConsume now c ∈ (allocGo now nid need l).1 := by
  intro l
  induction l with
  | nil =>
    intro need _ c b hsub
    simp at hsub
  | cons item rest ih =>
    intro need hnodup c b hsub hcons
    have hir : item.id ∉ rest.map Batch.id := (List.nodup_cons.mp hnodup).1
    have hnr : (rest.map Batch.id).Nodup := (List.nodup_cons.mp hnodup).2
    have hfromrest : ∀ x : Batch, x ∈ rest → x.id = item.id → False := by
      intro x hx he
      apply hir
      have := List.mem_map_of_mem Batch.id hx
      rwa [he] at this
    by_cases h0 : need = 0
    · simp [allocGo, h0] at hcons
    · by_cases hle : item.units ≤ need
      · simp only [allocGo, if_neg h0, if_pos hle] at hcons ⊢
        cases hsub with
        | cons₂ _ hb =>
          exact List.mem_cons_self _ _
        | cons _ hcb =>
          obtain ⟨u, hu, huid⟩ := hcons
          have hbrest : b ∈ rest := hcb.subset (by simp)
          rcases List.mem_cons.mp hu with rfl | hu'
          · exact (hfromrest b hbrest (by simpa [fullConsume] using huid.symm)).elim
          · exact List.mem_cons_of_mem _ (ih (need - item.units) hnr c b hcb ⟨u, hu', huid⟩)
      · simp only [allocGo, if_neg h0, if_neg hle, List.mem_singleton] at hcons ⊢
        obtain ⟨u, hu, huid⟩ := hcons
        rw [hu] at huid
        have hbrest : b ∈ rest := by
          cases hsub with
          | cons₂ _ hb => exact hb.subset (by simp)
          | cons _ hcb => exact hcb.subset (by simp)
        exact (hfromrest b hbrest (by simpa [reduceBy] using huid.symm)).elim

/-- In a list sorted by expiry, an element with strictly smaller expiry
occurs before one with larger expiry. -/
theorem sorted_pair_sublist {l : List Batch} (hs : List.Sorted expLE l)
    {c b : Batch} (hc : c ∈ l) (hb : b ∈ l) (hlt : c.expiryDate < b.expiryDate) :
    [c, b].Sublist l := by
  obtain ⟨s, t, rfl⟩ := List.append_of_mem hb
  rcases List.mem_append.mp hc with hcs | hct
  · have h1 : [c].Sublist s := List.singleton_sublist.mpr hcs
    have h2 : [b].Sublist (b :: t) := List.singleton_sublist.mpr (List.mem_cons_self b t)
    exact List.Sublist.append h1 h2
  · rcases List.mem_cons.mp hct with rfl | hct'
    · exact absurd hlt (lt_irrefl _)
    · have hpair := (List.pairwise_append.mp hs).2.1
      have hbc : expLE b c := List.rel_of_pairwise_cons hpair hct'
      exact absurd hlt (Nat.not_lt.mpr hbc)

/-- Elimination principle for a successful approve: recovers the loaded
request, the passed guards, and the exact shape of the final state. -/
theorem approve_ok_elim {now reqId : Nat} {db db' : DB} {res : Request}
    (h : approve now reqId db = (db', Except.ok res)) :
    ∃ request, findRequest db reqId = some request ∧
      request.status = RequestStatus.pending ∧
      ¬ (totalAvailable request.bloodType now db.inventory < request.units) ∧
      res = requestUpd now request ∧
      db' = { inventory :=
                applyUpdates (allocGo now db.nextId request.units
                  (sortByExpiry (eligibleOf request.bloodType now db.inventory))).1 db.inventory
                ++ (allocGo now db.nextId request.units
                  (sortByExpiry (eligibleOf request.bloodType now db.inventory))).2
              requests := db.requests.map (fun x =>
                if x.id = reqId then requestUpd now request else x)
              nextId := db.nextId + 1 } := by
  unfold approve at h
  cases hf : findRequest db reqId with
  | none =>
    rw [hf] at h
    simp at h
  | some request =>
    rw [hf] at h
    simp only at h
    by_cases hst : request.status = RequestStatus.pending
    · rw [if_neg (by simpa using hst)] at h
      by_cases hav : totalAvailable request.bloodType now db.inventory < request.units
      · rw [if_pos hav] at h
        simp at h
      · rw [if_neg hav] at h
        simp only [Prod.mk.injEq] at h
        obtain ⟨h1, h2⟩ := h
        refine ⟨request, rfl, hst, hav, ?_, h1.symm⟩
        injection h2.symm with h3
    · rw [if_pos (by simpa using hst)] at h
      simp at h

/-- Filtering commutes with a pointwise store update that neither moves a
kept element nor changes whether an element is kept. -/
theorem filter_map_eq {α : Type} (g : α → α) (p : α → Bool) :
    ∀ l : List α, (∀ a ∈ l, (p a = true → g a = a) ∧ p (g a) = p a) →
      (l.map g).filter p = l.filter p := by
  intro l
  induction l with
  | nil => intro _; rfl
  | cons a l' ih =>
    intro h
    have ha := h a (List.mem_cons_self a l')
    have hl' := fun x hx => h x (List.mem_cons_of_mem a hx)
    simp only [List.map_cons, List.filter_cons]
    cases hpa : p a with
    | true =>
      have hga : g a = a := ha.1 hpa
      have hpga : p (g a) = true := by rw [ha.2, hpa]
      rw [if_pos hpga, if_pos rfl, hga, ih hl']
    | false =>
      have hpga : p (g a) = false := by rw [ha.2, hpa]
      rw [if_neg (by simp [hpga]), if_neg (by simp), ih hl']

/-- With enough write budget the faulted loop performs exactly the writes of
the unfaulted loop and leaves budget to spare. -/
theorem allocGoF_big (now nid : Nat) :
    ∀ (l : List Batch) (need budget : Nat), l.length + 2 ≤ budget →
      ∃ left, allocGoF now nid need budget l =
        ⟨(allocGo now nid need l).1, (allocGo now nid need l).2, left, true⟩ ∧ 0 < left := by
  intro l
  induction l with
  | nil =>
    intro need budget hb
    exact ⟨budget, rfl, by simpa using Nat.lt_of_lt_of_le (by norm_num) hb⟩
  | cons item rest ih =>
    intro need budget hb
    have hb1 : budget ≠ 0 := by simp at hb; omega
    by_cases h0 : need = 0
    · refine ⟨budget, ?_, ?_⟩
      · simp [allocGoF, allocGo, h0]
      · simp at hb; omega
    · by_cases hle : item.units ≤ need
      · obtain ⟨left, heq, hpos⟩ := ih (need - item.units) (budget - 1) (by simp at hb; omega)
        refine ⟨left, ?_, hpos⟩
        simp only [allocGoF, allocGo, if_neg h0, if_pos hle, if_neg hb1, heq]
      · have hb2 : budget ≠ 1 := by simp at hb; omega
        refine ⟨budget - 2, ?_, by simp at hb; omega⟩
        simp only [allocGoF, allocGo, if_neg h0, if_neg hle, if_neg hb1, if_neg hb2]

/-! ### Claim theorems -/

/-- C1. For every allocation performed by the approve operation, the sum of
quantities over all inventory batches of any blood type (across all four
statuses) after the allocation equals the sum before it; in particular a
batch split neither loses nor duplicates quantity. -/
theorem approve_conserves_units {now reqId : Nat} {db db' : DB} {res : Request}
    (hnodup : (db.inventory.map Batch.id).Nodup)
    (hok : approve now reqId db = (db', Except.ok res)) :
    ∀ bt : BloodType, sumUnitsOf bt db'.inventory = sumUnitsOf bt db.inventory := by
  obtain ⟨request, _, _, _, _, hdb⟩ := approve_ok_elim hok
  intro bt
  subst hdb
  have hmeml : ∀ x ∈ sortByExpiry (eligibleOf request.bloodType now db.inventory),
      x ∈ db.inventory := by
    intro x hx
    exact (mem_eligibleOf.mp (mem_sortByExpiry.mp hx)).1
  have hnl : ((sortByExpiry (eligibleOf request.bloodType now db.inventory)).map Batch.id).Nodup :=
    nodup_ids_sorted_eligible hnodup
  have key := @alloc_conserve (fun b => if b.bloodType = bt then b.units else 0)
    now db.nextId db.inventory hnodup
    (by intro b; simp [fullConsume])
    (by
      intro q b hq hlt
      by_cases hbt : b.bloodType = bt
      · simp only [reduceBy, splitBatch, hbt, if_pos]
        omega
      · simp [reduceBy, splitBatch, hbt])
    (sortByExpiry (eligibleOf request.bloodType now db.inventory)) request.units hmeml hnl
  exact key

/-- C2. If the requested quantity exceeds the available quantity of the
request's blood type, approve fails with an insufficient-stock error that
carries the available and required quantities, no inventory batch is
mutated, and the request collection (hence the pending request) is
untouched. -/
theorem approve_insufficient_stock {now reqId : Nat} {db : DB} {request : Request}
    (hf : findRequest db reqId = some request)
    (hpend : request.status = RequestStatus.pending)
    (hlt : totalAvailable request.bloodType now db.inventory < request.units) :
    approve now reqId db =
      (db, Except.error (ApproveError.insufficientStock
        (totalAvailable request.bloodType now db.inventory) request.units)) := by
  simp only [approve, hf]
  rw [if_neg (by simp [hpend])]
  rw [if_pos hlt]

/-- C6. Approve rejects a request that is not pending with an invalid-state
error and leaves the whole state unchanged; conversely a successful approve
entails that the loaded request was pending. -/
theorem approve_requires_pending {now reqId : Nat} {db : DB} {request : Request}
    (hf : findRequest db reqId = some request) :
    (request.status ≠ RequestStatus.pending →
      approve now reqId db = (db, Except.error (ApproveError.invalidState request.status)))
    ∧ (∀ db' res, approve now reqId db = (db', Except.ok res) →
        request.status = RequestStatus.pending) := by
  constructor
  · intro hne
    simp only [approve, hf]
    rw [if_pos hne]
  · intro db' res hok
    obtain ⟨request2, hf2, hst2, _, _, _⟩ := approve_ok_elim hok
    rw [hf] at hf2
    injection hf2 with h
    rw [← h] at hst2
    exact hst2

/-- C4. FIFO by expiry: among eligible batches of the requested blood type
with pairwise distinct expiry dates, a batch is consumed by the allocation
of a successful approve only if every eligible batch with an earlier expiry
date was saved fully consumed. -/
theorem approve_fifo {now reqId : Nat} {db db' : DB} {res request : Request} {c b : Batch}
    (hf : findRequest db reqId = some request)
    (hnodup : (db.inventory.map Batch.id).Nodup)
    (hok : approve now reqId db = (db', Except.ok res))
    (hdistinct : (eligibleOf request.bloodType now db.inventory).Pairwise
      (fun x y => x.expiryDate ≠ y.expiryDate))
    (hc : c ∈ eligibleOf request.bloodType now db.inventory)
    (hb : b ∈ eligibleOf request.bloodType now db.inventory)
    (hlt : c.expiryDate < b.expiryDate)
    (hcons : ∃ u ∈ (allocGo now db.nextId request.units
        (sortByExpiry (eligibleOf request.bloodType now db.inventory))).1, u.id = b.id) :
    fullConsume now c ∈ (allocGo now db.nextId request.units
        (sortByExpiry (eligibleOf request.bloodType now db.inventory))).1 := by
  have hsorted := sortByExpiry_sorted (eligibleOf request.bloodType now db.inventory)
  have hcs : c ∈ sortByExpiry (eligibleOf request.bloodType now db.inventory) :=
    mem_sortByExpiry.mpr hc
  have hbs : b ∈ sortByExpiry (eligibleOf request.bloodType now db.inventory) :=
    mem_sortByExpiry.mpr hb
  have hpair := sorted_pair_sublist hsorted hcs hbs hlt
  exact allocGo_consumes_earlier now db.nextId _ request.units
    (nodup_ids_sorted_eligible hnodup) c b hpair hcons

/-- C5. Allocating a remaining need `q` from a single available batch with
more than `q` units splits it into exactly two batches: a new batch of `q`
units with the consumed status `used`, retaining the original blood type,
expiry date and donor reference, and the original batch reduced to
`units - q`, still available; the two quantities sum to the original. -/
theorem allocGo_split_correct {now nid q : Nat} {b : Batch} {rest : List Batch}
    (hq : 0 < q) (hlt : q < b.units) (havail : b.status = BatchStatus.available) :
    allocGo now nid q (b :: rest) = ([reduceBy now q b], [splitBatch now nid q b])
    ∧ (splitBatch now nid q b).units = q
    ∧ (splitBatch now nid q b).status = BatchStatus.used
    ∧ (splitBatch now nid q b).bloodType = b.bloodType
    ∧ (splitBatch now nid q b).expiryDate = b.expiryDate
    ∧ (splitBatch now nid q b).donorId = b.donorId
    ∧ (reduceBy now q b).units = b.units - q
    ∧ (reduceBy now q b).status = BatchStatus.available
    ∧ (reduceBy now q b).units + (splitBatch now nid q b).units = b.units := by
  refine ⟨?_, rfl, rfl, rfl, rfl, rfl, rfl, by simp [reduceBy, havail], ?_⟩
  · simp only [allocGo]
    rw [if_neg (Nat.pos_iff_ne_zero.mp hq), if_neg (Nat.not_le.mpr hlt)]
  · simp only [reduceBy, splitBatch]
    omega

/-- C7. A successful approve consumes only batches that are available with
expiry strictly in the future at the time of the call: any other batch of
the store is still present, unchanged, afterwards (in particular a
date-expired batch is never consumed). -/
theorem approve_spares_ineligible {now reqId : Nat} {db db' : DB} {res : Request}
    (hnodup : (db.inventory.map Batch.id).Nodup)
    (hok : approve now reqId db = (db', Except.ok res)) :
    ∀ b ∈ db.inventory,
      ¬ (b.status = BatchStatus.available ∧ now < b.expiryDate) → b ∈ db'.inventory := by
  obtain ⟨request, _, _, _, _, hdb⟩ := approve_ok_elim hok
  subst hdb
  intro b hb hnel
  apply List.mem_append_left
  apply mem_applyUpdates_unmatched hb
  intro u hu
  obtain ⟨e, he, huid, _, _⟩ := allocGo_ups_spec now db.nextId _ request.units u hu
  have he2 := mem_eligibleOf.mp (mem_sortByExpiry.mp he)
  intro hc
  have heb : e = b := nodup_ids_inj hnodup he2.1 hb (by rw [← huid, hc])
  subst heb
  exact hnel ⟨he2.2.2.1, he2.2.2.2⟩

/-- C8. The expiry sweep is idempotent — running it twice at the same
instant equals running it once — and it transitions exactly the available
batches whose expiry lies strictly before `now` to expired, leaving every
other batch untouched. -/
theorem checkExpiredBlood_idempotent (now : Nat) (inv : List Batch) :
    checkExpiredBlood now (checkExpiredBlood now inv) = checkExpiredBlood now inv
    ∧ ∀ b ∈ inv,
      (b.status = BatchStatus.available ∧ b.expiryDate < now →
        { b with status := BatchStatus.expired } ∈ checkExpiredBlood now inv)
      ∧ (¬ (b.status = BatchStatus.available ∧ b.expiryDate < now) →
        b ∈ checkExpiredBlood now inv) := by
  constructor
  · unfold checkExpiredBlood
    rw [List.map_map]
    apply List.map_congr_left
    intro b _
    by_cases hcond : b.expiryDate < now ∧ b.status = BatchStatus.available
    · simp [hcond]
    · simp [hcond]
  · intro b hb
    constructor
    · intro hcond
      have himg : (if b.expiryDate < now ∧ b.status = BatchStatus.available then
          { b with status := BatchStatus.expired } else b) ∈ checkExpiredBlood now inv :=
        List.mem_map_of_mem _ hb
      rwa [if_pos ⟨hcond.2, hcond.1⟩] at himg
    · intro hcond
      have himg : (if b.expiryDate < now ∧ b.status = BatchStatus.available then
          { b with status := BatchStatus.expired } else b) ∈ checkExpiredBlood now inv :=
        List.mem_map_of_mem _ hb
      rwa [if_neg (fun h => hcond ⟨h.2, h.1⟩)] at himg

/-- C9 (counterexample). Two available O+ batches share the expiry date 100;
the batch created later (`batchC`, createdAt 200) precedes the older batch
(`batchD`, createdAt 50) in store order. Approving a 1-unit request consumes
the younger-created batch and leaves the older one untouched, so allocation
does not order equal-expiry batches by creation order. -/
theorem approve_tiebreak_cex :
    batchD.createdAt < batchC.createdAt
    ∧ batchC.expiryDate = batchD.expiryDate
    ∧ batchC.status = BatchStatus.available
    ∧ batchD.status = BatchStatus.available
    ∧ (approve 10 11 dbB).1.inventory = [fullConsume 10 batchC, batchD]
    ∧ batchD ∈ (approve 10 11 dbB).1.inventory
    ∧ isOkE (approve 10 11 dbB).2 = true := by
  decide

/-- C9 (amended). Batches with identical expiry date are consumed in store
order (the order the database returns them), which need not be creation
order: if two eligible equal-expiry batches appear in store order `c` then
`b` and the allocation of a successful approve consumes `b`, it has saved
`c` as fully consumed. -/
theorem approve_ties_in_store_order {now reqId : Nat} {db db' : DB} {res request : Request}
    {c b : Batch}
    (hf : findRequest db reqId = some request)
    (hnodup : (db.inventory.map Batch.id).Nodup)
    (hok : approve now reqId db = (db', Except.ok res))
    (hsub : [c, b].Sublist db.inventory)
    (hc : c ∈ eligibleOf request.bloodType now db.inventory)
    (hb : b ∈ eligibleOf request.bloodType now db.inventory)
    (heq : c.expiryDate = b.expiryDate)
    (hcons : ∃ u ∈ (allocGo now db.nextId request.units
        (sortByExpiry (eligibleOf request.bloodType now db.inventory))).1, u.id = b.id) :
    fullConsume now c ∈ (allocGo now db.nextId request.units
        (sortByExpiry (eligibleOf request.bloodType now db.inventory))).1 := by
  have hc' := mem_eligibleOf.mp hc
  have hb' := mem_eligibleOf.mp hb
  have hfilter : List.filter
      (fun x => decide (x.bloodType = request.bloodType ∧
        x.status = BatchStatus.available ∧ now < x.expiryDate)) [c, b] = [c, b] := by
    simp only [List.filter_cons, List.filter_nil]
    rw [decide_eq_true ⟨hc'.2.1, hc'.2.2.1, hc'.2.2.2⟩,
        decide_eq_true ⟨hb'.2.1, hb'.2.2.1, hb'.2.2.2⟩]
    simp
  have hsub2 : [c, b].Sublist (eligibleOf request.bloodType now db.inventory) := by
    have := hsub.filter
      (fun x => decide (x.bloodType = request.bloodType ∧
        x.status = BatchStatus.available ∧ now < x.expiryDate))
    rwa [hfilter] at this
  have hpair : [c, b].Sublist (sortByExpiry (eligibleOf request.bloodType now db.inventory)) :=
    List.pair_sublist_insertionSort (le_of_eq heq) hsub2
  exact allocGo_consumes_earlier now db.nextId _ request.units
    (nodup_ids_sorted_eligible hnodup) c b hpair hcons

/-- C10. Frame property of a successful approve: every inventory batch of a
blood type other than the request's is untouched (the restriction of the
store to such batches is unchanged, so no such batch is mutated or created),
and every request other than the approved one is untouched. -/
theorem approve_frame {now reqId : Nat} {db db' : DB} {res request : Request}
    (hf : findRequest db reqId = some request)
    (hnodup : (db.inventory.map Batch.id).Nodup)
    (hok : approve now reqId db = (db', Except.ok res)) :
    db'.inventory.filter (fun b => !(decide (b.bloodType = request.bloodType)))
      = db.inventory.filter (fun b => !(decide (b.bloodType = request.bloodType)))
    ∧ db'.requests.filter (fun x => !(decide (x.id = reqId)))
      = db.requests.filter (fun x => !(decide (x.id = reqId))) := by
  obtain ⟨request2, hf2, _, _, _, hdb⟩ := approve_ok_elim hok
  rw [hf] at hf2
  injection hf2 with hreq
  subst hreq
  subst hdb
  have hf' : db.requests.find? (fun r => decide (r.id = reqId)) = some request := hf
  have hp0 := List.find?_some hf'
  have hrid : request.id = reqId := of_decide_eq_true hp0
  constructor
  · show (List.filter _ (applyUpdates _ db.inventory ++ _)) = _
    rw [List.filter_append]
    have hnews : List.filter (fun b => !(decide (b.bloodType = request.bloodType)))
        (allocGo now db.nextId request.units
          (sortByExpiry (eligibleOf request.bloodType now db.inventory))).2 = [] := by
      rw [List.filter_eq_nil_iff]
      intro nb hnb
      obtain ⟨e, he, q, _, _, hnbe⟩ := allocGo_news_spec now db.nextId _ request.units nb hnb
      have he2 := mem_eligibleOf.mp (mem_sortByExpiry.mp he)
      subst hnbe
      simp [splitBatch, he2.2.1]
    rw [hnews, List.append_nil]
    unfold applyUpdates
    apply filter_map_eq
    intro b hb
    cases hfind : (allocGo now db.nextId request.units
        (sortByExpiry (eligibleOf request.bloodType now db.inventory))).1.find?
          (fun u => decide (u.id = b.id)) with
    | none => simp
    | some u =>
      have hu := List.mem_of_find?_eq_some hfind
      have hp := List.find?_some hfind
      have huid : u.id = b.id := of_decide_eq_true hp
      obtain ⟨e, he, hueid, hubt, _⟩ := allocGo_ups_spec now db.nextId _ request.units u hu
      have he2 := mem_eligibleOf.mp (mem_sortByExpiry.mp he)
      have heb : e = b := nodup_ids_inj hnodup he2.1 hb (by rw [← hueid, huid])
      have hbbt : b.bloodType = request.bloodType := heb ▸ he2.2.1
      constructor
      · intro hpb
        exfalso
        simp [hbbt] at hpb
      · simp only [Option.getD_some]
        have hub : u.bloodType = b.bloodType := by rw [hubt, heb]
        simp [hub]
  · show (List.filter _ (db.requests.map _)) = _
    apply filter_map_eq
    intro x hx
    by_cases hxid : x.id = reqId
    · constructor
      · intro hpx
        simp [hxid] at hpx
      · rw [if_pos hxid]
        simp [requestUpd, hxid, hrid]
    · constructor
      · intro _
        rw [if_neg hxid]
      · rw [if_neg hxid]

/-- C3 (counterexample). Approving the 5-unit request of `dbA` with only one
successful write (the first batch's save) leaves a partial effect: the
earliest-expiring batch is committed as used, the handler fails, and the
request is still pending — neither all effects nor none. -/
theorem approve_not_atomic_cex :
    (approveFaulty 10 10 1 dbA).2 = false
    ∧ (approveFaulty 10 10 1 dbA).1.inventory ≠ dbA.inventory
    ∧ (approveFaulty 10 10 1 dbA).1.inventory ≠ (approve 10 10 dbA).1.inventory
    ∧ (approveFaulty 10 10 1 dbA).1.requests = dbA.requests
    ∧ fullConsume 10 batchA ∈ (approveFaulty 10 10 1 dbA).1.inventory := by
  refine ⟨rfl, by decide, by decide, rfl, by decide⟩

/-- C3 (amended). The approve handler issues its writes sequentially with no
transaction: when every write succeeds the handler commits exactly the full
effect of `approve`, and when any write fails the handler aborts with the
already-performed batch writes still committed while the request document
itself is never updated (its save is the final write) — so a failed run is
observable as a partial state, not a rollback. -/
theorem approveFaulty_no_rollback :
    ∀ (now reqId budget : Nat) (db db2 : DB),
      (db.inventory.length + 2 ≤ budget →
        approveFaulty now reqId budget db =
          ((approve now reqId db).1, isOkE (approve now reqId db).2))
      ∧ (approveFaulty now reqId budget db = (db2, false) → db2.requests = db.requests) := by
  intro now reqId budget db db2
  constructor
  · intro hbudget
    cases hf : findRequest db reqId with
    | none => simp [approveFaulty, approve, hf, isOkE]
    | some request =>
      by_cases hst : request.status = RequestStatus.pending
      · by_cases hav : totalAvailable request.bloodType now db.inventory < request.units
        · simp [approveFaulty, approve, hf, hst, hav, isOkE]
        · have hlen : (sortByExpiry (eligibleOf request.bloodType now db.inventory)).length + 2
              ≤ budget := by
            have h1 : (sortByExpiry (eligibleOf request.bloodType now db.inventory)).length
                = (eligibleOf request.bloodType now db.inventory).length :=
              List.length_insertionSort expLE _
            have h2 : (eligibleOf request.bloodType now db.inventory).length
                ≤ db.inventory.length := List.length_filter_le _ _
            omega
          obtain ⟨left, heq, hpos⟩ :=
            allocGoF_big now db.nextId _ request.units budget hlen
          simp [approveFaulty, approve, hf, hst, hav, heq, isOkE,
            Nat.pos_iff_ne_zero.mp hpos]
      · simp [approveFaulty, approve, hf, hst, isOkE]
  · intro hfail
    unfold approveFaulty at hfail
    split at hfail
    · injection hfail with h1 _
      rw [← h1]
    · split at hfail
      · injection hfail with h1 _
        rw [← h1]
      · dsimp only at hfail
        split at hfail
        · injection hfail with h1 _
          rw [← h1]
        · split at hfail
          · split at hfail
            · injection hfail with h1 _
              rw [← h1]
            · injection hfail with _ h2
              simp at h2
          · injection hfail with h1 _
            rw [← h1]

/-! ### Witnesses -/

/-- Witness for C1 at the two-batch store `dbA`. -/
theorem approve_conserves_units_witness :
    sumUnitsOf BloodType.Ap (approve 10 10 dbA).1.inventory
      = sumUnitsOf BloodType.Ap dbA.inventory :=
  @approve_conserves_units 10 10 dbA ((approve 10 10 dbA).1) (requestUpd 10 requestA)
    (by decide) rfl BloodType.Ap

/-- Witness for C2 at the under-stocked store `dbD`. -/
theorem approve_insufficient_stock_witness :
    approve 10 13 dbD =
      (dbD, Except.error (ApproveError.insufficientStock
        (totalAvailable BloodType.On 10 dbD.inventory) 10)) :=
  @approve_insufficient_stock 10 13 dbD requestD rfl rfl (by decide)

/-- Witness for C3 (amended) at `dbA`: ample budget reproduces `approve`,
and a failed run keeps the request collection unchanged. -/
theorem approveFaulty_no_rollback_witness :
    approveFaulty 10 10 99 dbA = ((approve 10 10 dbA).1, isOkE (approve 10 10 dbA).2)
    ∧ (approveFaulty 10 10 1 dbA).1.requests = dbA.requests :=
  ⟨(approveFaulty_no_rollback 10 10 99 dbA dbA).1 (by decide),
   (approveFaulty_no_rollback 10 10 1 dbA (approveFaulty 10 10 1 dbA).1).2 rfl⟩

/-- Witness for C4 at `dbA`: the later-expiring batch is touched, so the
earlier-expiring batch was fully consumed. -/
theorem approve_fifo_witness :
    fullConsume 10 batchA ∈ (allocGo 10 dbA.nextId requestA.units
      (sortByExpiry (eligibleOf requestA.bloodType 10 dbA.inventory))).1 :=
  @approve_fifo 10 10 dbA ((approve 10 10 dbA).1) (requestUpd 10 requestA) requestA
    batchA batchB
    rfl (by decide) rfl (by decide) (by decide) (by decide) (by decide)
    ⟨reduceBy 10 2 batchB, by decide, rfl⟩

/-- Witness for C5: splitting 1 unit out of the 3-unit batch `batchA`. -/
theorem allocGo_split_correct_witness :
    allocGo 10 70 1 (batchA :: []) = ([reduceBy 10 1 batchA], [splitBatch 10 70 1 batchA])
    ∧ (splitBatch 10 70 1 batchA).units = 1
    ∧ (splitBatch 10 70 1 batchA).status = BatchStatus.used
    ∧ (splitBatch 10 70 1 batchA).bloodType = batchA.bloodType
    ∧ (splitBatch 10 70 1 batchA).expiryDate = batchA.expiryDate
    ∧ (splitBatch 10 70 1 batchA).donorId = batchA.donorId
    ∧ (reduceBy 10 1 batchA).units = batchA.units - 1
    ∧ (reduceBy 10 1 batchA).status = BatchStatus.available
    ∧ (reduceBy 10 1 batchA).units + (splitBatch 10 70 1 batchA).units = batchA.units :=
  allocGo_split_correct (by decide) (by decide) rfl

/-- Witness for C6 at `dbE`, whose request is already fulfilled. -/
theorem approve_requires_pending_witness :
    approve 0 14 dbE = (dbE, Except.error (ApproveError.invalidState RequestStatus.fulfilled)) :=
  (@approve_requires_pending 0 14 dbE requestE rfl).1 (by decide)

/-- Witness for C7 at `dbF`: the date-expired batch survives unchanged. -/
theorem approve_spares_ineligible_witness :
    batchF ∈ (approve 10 15 dbF).1.inventory :=
  @approve_spares_ineligible 10 15 dbF ((approve 10 15 dbF).1) (requestUpd 10 requestF)
    (by decide) rfl batchF (by decide) (by decide)

/-- Witness for C8 on a store holding one date-expired available batch. -/
theorem checkExpiredBlood_idempotent_witness :
    checkExpiredBlood 10 (checkExpiredBlood 10 [batchF]) = checkExpiredBlood 10 [batchF]
    ∧ { batchF with status := BatchStatus.expired } ∈ checkExpiredBlood 10 [batchF] :=
  ⟨(checkExpiredBlood_idempotent 10 [batchF]).1,
   ((checkExpiredBlood_idempotent 10 [batchF]).2 batchF (by decide)).1 (by decide)⟩

/-- Witness for C9 (amended) at `dbC`: with both equal-expiry batches
consumed, the batch first in store order was fully consumed. -/
theorem approve_ties_in_store_order_witness :
    fullConsume 10 batchC ∈ (allocGo 10 dbC.nextId requestC.units
      (sortByExpiry (eligibleOf requestC.bloodType 10 dbC.inventory))).1 :=
  @approve_ties_in_store_order 10 12 dbC ((approve 10 12 dbC).1) (requestUpd 10 requestC)
    requestC batchC batchD
    rfl (by decide) rfl (List.Sublist.refl _) (by decide) (by decide) rfl
    ⟨fullConsume 10 batchD, by decide, rfl⟩

/-- Witness for C10 at the two-type store `dbG`. -/
theorem approve_frame_witness :
    (approve 10 15 dbG).1.inventory.filter
        (fun b => !(decide (b.bloodType = requestF.bloodType)))
      = dbG.inventory.filter (fun b => !(decide (b.bloodType = requestF.bloodType)))
    ∧ (approve 10 15 dbG).1.requests.filter (fun x => !(decide (x.id = 15)))
      = dbG.requests.filter (fun x => !(decide (x.id = 15))) :=
  @approve_frame 10 15 dbG ((approve 10 15 dbG).1) (requestUpd 10 requestF) requestF
    rfl (by decide) rfl
